import Mathlib

/-!
Shallow embedding of `cron.go` (package `cron`): a five-field cron
expression parser (`Parse`) and next-occurrence search (`Next`).

Modelling conventions:
* Go fixed-width bitsets (`bitset8/16/32/64`) are modelled as `Nat`.
  On every path of the source the shift amount is at most the field
  bound's max (59/24/31/12/6), strictly below the corresponding Go
  type width, so no wraparound ever occurs and plain `Nat` is exact.
  A negative shift amount is a Go runtime panic, modelled explicitly.
* Go `time.Time` is modelled as an absolute instant: `Int` minutes
  since 1970-01-01T00:00 UTC (after the initial truncation all times
  in `Next` are whole minutes); the reference instant handed to
  `nextF` is in seconds, as `Next` truncates sub-minute components.
  The timezone is fixed to UTC (`tz` is only used via `t.In`, which
  is the identity for UTC; claims are stated for UTC schedules).
  Civil-calendar conversions implement the proleptic Gregorian
  calendar, the same date mapping `time.Date` / `Time.Year` etc. use.
* Loops without a structural bound (`buildBitset`, the `goto loop`
  in `Next`) take a fuel argument; `none` means the computation did
  not finish within the given fuel (in particular an infinite loop
  never returns for any fuel).
-/

/-- Days since 1970-01-01 to civil (year, month, day), proleptic
Gregorian; floor-division variant of the standard algorithm. -/
def civilFromDays (z0 : Int) : Int × Int × Int :=
  let z := z0 + 719468
  let era := z.fdiv 146097
  let doe := z - era * 146097
  let yoe := (doe - doe.fdiv 1460 + doe.fdiv 36524 - doe.fdiv 146096).fdiv 365
  let y := yoe + era * 400
  let doy := doe - (365 * yoe + yoe.fdiv 4 - yoe.fdiv 100)
  let mp := (5 * doy + 2).fdiv 153
  let d := doy - (153 * mp + 2).fdiv 5 + 1
  let m := if mp < 10 then mp + 3 else mp - 9
  (if m ≤ 2 then y + 1 else y, m, d)

/-- Civil (year, month, day) to days since 1970-01-01, proleptic
Gregorian (month must be in 1..12; the day may spill arithmetically,
matching Go's `time.Date` normalization of out-of-range days). -/
def daysFromCivil (y0 m d : Int) : Int :=
  let y := if m ≤ 2 then y0 - 1 else y0
  let era := y.fdiv 400
  let yoe := y - era * 400
  let mp := if 2 < m then m - 3 else m + 9
  let doy := (153 * mp + 2).fdiv 5 + d - 1
  let doe := yoe * 365 + yoe.fdiv 4 - yoe.fdiv 100 + doy
  era * 146097 + doe - 719468

/-- `t.Year()` for an instant in minutes since epoch (UTC). -/
def yearOf (tm : Int) : Int := (civilFromDays (tm.fdiv 1440)).1

/-- `t.Month()` (1..12). -/
def monthOf (tm : Int) : Int := (civilFromDays (tm.fdiv 1440)).2.1

/-- `t.Day()` (1..31). -/
def dayOf (tm : Int) : Int := (civilFromDays (tm.fdiv 1440)).2.2

/-- `t.Hour()` (0..23). -/
def hourOf (tm : Int) : Int := (tm.emod 1440).fdiv 60

/-- `t.Minute()` (0..59). -/
def minuteOf (tm : Int) : Int := tm.emod 60

/-- `t.Weekday()` (Sunday = 0); 1970-01-01 was a Thursday (= 4). -/
def weekdayOf (tm : Int) : Int := (tm.fdiv 1440 + 4).emod 7

/-- Go `time.Date(y, M, d, h, mi, 0, 0, UTC)` at minute granularity:
months are floor-normalized into 1..12 shifting the year, then day,
hour and minute spill arithmetically, exactly as in the source of
`time.Date`. Result is in minutes since epoch. -/
def goDate (y M d h mi : Int) : Int :=
  let ny := y + (M - 1).fdiv 12
  let nm := (M - 1).emod 12 + 1
  (daysFromCivil ny nm d) * 1440 + h * 60 + mi

/-- Go `t.AddDate(dy, dm, dd)` = `time.Date` of the shifted civil
fields with the clock kept. -/
def addDate (t dy dm dd : Int) : Int :=
  goDate (yearOf t + dy) (monthOf t + dm) (dayOf t + dd) (hourOf t) (minuteOf t)

/-- `bits.Len` helper with structural fuel (fuel `n+1` suffices). -/
def bitsLenAux : Nat → Nat → Nat
  | 0, _ => 0
  | fuel + 1, n => if n = 0 then 0 else bitsLenAux fuel (n / 2) + 1

/-- Go `bits.Len`: number of bits needed to represent `n`. -/
def bitsLen (n : Nat) : Nat := bitsLenAux (n + 1) n

/-- The scan loop `for i = start; i < stop; i++ { if mask&(1<<i) != 0 break }`
of `Next`, structurally recursive on the remaining width: first
position in `[start, stop)` whose bit is set in `mask`, else `none`
(in the source: `i >= bitsLen` after the loop). -/
def scanUpAux (mask : Nat) : Nat → Nat → Option Nat
  | _, 0 => none
  | start, k + 1 =>
    if mask &&& (1 <<< start) ≠ 0 then some start else scanUpAux mask (start + 1) k

/-- Bit scan over `[start, stop)`. -/
def scanUp (mask start stop : Nat) : Option Nat := scanUpAux mask start (stop - start)

/-- Whitespace as recognized by `strings.Fields` / `strings.TrimSpace`
(ASCII part of `unicode.IsSpace`). -/
def goIsSpace (c : Char) : Bool :=
  c = ' ' ∨ c = '\t' ∨ c = '\n' ∨ c = '\x0b' ∨ c = '\x0c' ∨ c = '\r'

/-- `strings.TrimSpace`. -/
def goTrimSpace (l : List Char) : List Char :=
  ((l.dropWhile goIsSpace).reverse.dropWhile goIsSpace).reverse

/-- Accumulator version of `strings.Fields`. -/
def fieldsAux : List Char → List Char → List (List Char)
  | [], acc => if acc = [] then [] else [acc.reverse]
  | c :: cs, acc =>
    if goIsSpace c then
      if acc = [] then fieldsAux cs [] else acc.reverse :: fieldsAux cs []
    else fieldsAux cs (c :: acc)

/-- `strings.Fields`: split around runs of whitespace, no empty fields. -/
def goFields (l : List Char) : List (List Char) := fieldsAux l []

/-- `strings.Split(s, sep)` for a one-character separator: always
returns at least one (possibly empty) part. -/
def splitOnChar (sep : Char) : List Char → List (List Char)
  | [] => [[]]
  | c :: cs =>
    match splitOnChar sep cs with
    | [] => [[]]
    | p :: ps => if c = sep then [] :: p :: ps else (c :: p) :: ps

/-- `strings.Replace(s, star, repl, 1)`: replace the first occurrence
of a single star character. -/
def replaceFirstStar (repl : List Char) : List Char → List Char
  | [] => []
  | c :: cs => if c = '*' then repl ++ cs else c :: replaceFirstStar repl cs

/-- Decimal digits of a natural, most significant first, with
structural fuel (fuel `n+1` suffices). -/
def natToCharsGo : Nat → Nat → List Char → List Char
  | 0, _, acc => acc
  | fuel + 1, n, acc =>
    let acc2 := Char.ofNat (48 + n % 10) :: acc
    if n / 10 = 0 then acc2 else natToCharsGo fuel (n / 10) acc2

/-- Decimal representation of a natural number. -/
def natToChars (n : Nat) : List Char := natToCharsGo (n + 1) n []

/-- `fmt.Sprintf` of an int with the `%d` verb. -/
def intToChars (z : Int) : List Char :=
  if z < 0 then '-' :: natToChars (-z).toNat else natToChars z.toNat

/-- Inclusive legal range of one field kind (`fieldBounds`). -/
structure FieldBounds where
  min : Int
  max : Int
deriving DecidableEq, Repr

/-- `fmt.Sprintf("%d-%d", bounds.min, bounds.max)`. -/
def fmtMinMax (b : FieldBounds) : List Char :=
  intToChars b.min ++ '-' :: intToChars b.max

/-- ASCII decimal digit test. -/
def isDigitChar (c : Char) : Bool := '0' ≤ c ∧ c ≤ '9'

/-- Value of a list of decimal digits, most significant first. -/
def digitsVal (l : List Char) : Nat :=
  l.foldl (fun a c => a * 10 + (c.toNat - 48)) 0

/-- `strconv.Atoi`: optional single sign, then one or more decimal
digits, value within the 64-bit int range; `none` is a parse error. -/
def atoi (s : List Char) : Option Int :=
  let sd : Int × List Char :=
    match s with
    | [] => (1, [])
    | c :: rest =>
      if c = '+' then (1, rest) else if c = '-' then (-1, rest) else (1, c :: rest)
  if sd.2 = [] then none
  else if sd.2.all isDigitChar then
    let v : Int := sd.1 * digitsVal sd.2
    if v < -(2 ^ 63) ∨ 2 ^ 63 - 1 < v then none else some v
  else none

/-- `boundMinute` in the source. -/
def boundMinute : FieldBounds := ⟨0, 59⟩

/-- `boundHour` in the source (note the max of 24, one past 23). -/
def boundHour : FieldBounds := ⟨0, 24⟩

/-- `boundDOM` in the source. -/
def boundDOM : FieldBounds := ⟨1, 31⟩

/-- `boundMonth` in the source. -/
def boundMonth : FieldBounds := ⟨1, 12⟩

/-- `boundDOW` in the source. -/
def boundDOW : FieldBounds := ⟨0, 6⟩

/-- `yearLimit` in the source. -/
def yearLimit : Int := 5

/-- Outcome of compiling one field (or field part): a bitset, the
`ErrInvalidExpression` error, or a runtime panic (negative shift
amount in `buildBitset`). -/
inductive PartRes where
  | ok (b : Nat)
  | invalid
  | panicked
deriving DecidableEq, Repr

/-- `buildBitset`: the loop `for i := min; i <= max; i += step`,
setting bit `i` each iteration. `1 << i` with negative `i` is a Go
runtime panic. Fuel-indexed; `none` = did not finish. -/
def buildBitsetF : Nat → Int → Int → Int → Nat → Option PartRes
  | 0, _, _, _, _ => none
  | fuel + 1, i, mx, step, acc =>
    if i ≤ mx then
      if i < 0 then some .panicked
      else buildBitsetF fuel (i + step) mx step (acc ||| (1 <<< i.toNat))
    else some (.ok acc)

/-- `parseFieldPart`: grammar `number | number "-" number [ "/" number ]`,
after rewriting the first `*` into `min-max`. -/
def parseFieldPartF (fuel : Nat) (fPart : List Char) (fBounds : FieldBounds) :
    Option PartRes :=
  let newexpr := replaceFirstStar (fmtMinMax fBounds) fPart
  let rangeAndStep := splitOnChar '/' newexpr
  if 2 < rangeAndStep.length then some .invalid
  else
    let hasStep := rangeAndStep.length = 2
    let lowAndHigh := splitOnChar '-' (rangeAndStep.headD [])
    if 2 < lowAndHigh.length then some .invalid
    else
      match atoi (lowAndHigh.headD []) with
      | none => some .invalid
      | some bg =>
        if fBounds.max < bg ∨ bg < fBounds.min then some .invalid
        else
          let endv : Option Int :=
            if lowAndHigh.length = 1 ∧ hasStep then some fBounds.max
            else if lowAndHigh.length = 1 ∧ ¬hasStep then some bg
            else atoi (lowAndHigh.getD 1 [])
          match endv with
          | none => some .invalid
          | some en =>
            if fBounds.max < en ∨ en < fBounds.min then some .invalid
            else if en < bg then some .invalid
            else
              match if hasStep then atoi (rangeAndStep.getD 1 []) else some 1 with
              | none => some .invalid
              | some step => buildBitsetF fuel bg en step 0

/-- The comma loop of `parseField`, ORing the parts' bitsets. -/
def parseFieldAux (fuel : Nat) (fBounds : FieldBounds) :
    List (List Char) → Nat → Option PartRes
  | [], acc => some (.ok acc)
  | p :: ps, acc =>
    match parseFieldPartF fuel p fBounds with
    | none => none
    | some .invalid => some .invalid
    | some .panicked => some .panicked
    | some (.ok r) => parseFieldAux fuel fBounds ps (acc ||| r)

/-- `parseField`: split the field on `,` and OR the parts. -/
def parseFieldF (fuel : Nat) (field : List Char) (fBounds : FieldBounds) :
    Option PartRes :=
  parseFieldAux fuel fBounds (splitOnChar ',' field) 0

/-- The `Cron` schedule: five bitsets (timezone fixed to UTC). -/
structure Sched where
  minute : Nat
  hour : Nat
  dom : Nat
  month : Nat
  dow : Nat
deriving DecidableEq, Repr

/-- Outcome of `Parse`. -/
inductive ParseRes where
  | ok (s : Sched)
  | invalid
  | panicked
deriving DecidableEq, Repr

/-- `Parse`: trim, split on whitespace, require exactly five fields,
compile them in order (minute, hour, dom, month, dow), first failure
short-circuits. -/
def parseF (fuel : Nat) (expr : String) : Option ParseRes :=
  match goFields (goTrimSpace expr.data) with
  | [f0, f1, f2, f3, f4] =>
    match parseFieldF fuel f0 boundMinute with
    | none => none
    | some .invalid => some .invalid
    | some .panicked => some .panicked
    | some (.ok minuteB) =>
      match parseFieldF fuel f1 boundHour with
      | none => none
      | some .invalid => some .invalid
      | some .panicked => some .panicked
      | some (.ok hourB) =>
        match parseFieldF fuel f2 boundDOM with
        | none => none
        | some .invalid => some .invalid
        | some .panicked => some .panicked
        | some (.ok domB) =>
          match parseFieldF fuel f3 boundMonth with
          | none => none
          | some .invalid => some .invalid
          | some .panicked => some .panicked
          | some (.ok monthB) =>
            match parseFieldF fuel f4 boundDOW with
            | none => none
            | some .invalid => some .invalid
            | some .panicked => some .panicked
            | some (.ok dowB) => some (.ok ⟨minuteB, hourB, domB, monthB, dowB⟩)
  | _ => some .invalid

/-- Result of one stage of the `Next` search: either `goto loop`
with the updated `resetted` flag and time, or fall through to the
next stage. -/
inductive StageOut where
  | jump (rst : Bool) (t : Int)
  | cont (rst : Bool) (t : Int)
deriving DecidableEq, Repr

/-- Month stage of `Next` (lines 219-256 of the source). -/
def monthStage (s : Sched) (rst : Bool) (t : Int) : StageOut :=
  let year := yearOf t
  if (1 <<< (monthOf t).toNat) &&& s.month = 0 then
    match scanUp s.month ((monthOf t).toNat + 1) (bitsLen s.month) with
    | none => .jump true (addDate (goDate (yearOf t) 1 1 0 0) 1 0 0)
    | some i =>
      let p : Bool × Int :=
        if !rst then (true, goDate (yearOf t) (monthOf t) 1 0 0) else (rst, t)
      let t2 := addDate p.2 0 ((i : Int) - monthOf p.2) 0
      if yearOf t2 ≠ year then .jump p.1 t2 else .cont p.1 t2
  else .cont rst t

/-- Day stage of `Next` (lines 258-295): note the entry test is the
AND of the dom and dow masks but the scan and the jump only consult
the dom mask. -/
def dayStage (s : Sched) (rst : Bool) (t : Int) : StageOut :=
  let month := monthOf t
  if (1 <<< (dayOf t).toNat) &&& s.dom = 0 ∨ (1 <<< (weekdayOf t).toNat) &&& s.dow = 0 then
    match scanUp s.dom ((dayOf t).toNat + 1) (bitsLen s.dom) with
    | none => .jump true (addDate (goDate (yearOf t) (monthOf t) 1 0 0) 0 1 0)
    | some i =>
      let p : Bool × Int :=
        if !rst then (true, goDate (yearOf t) (monthOf t) (dayOf t) 0 0) else (rst, t)
      let t2 := addDate p.2 0 0 ((i : Int) - dayOf p.2)
      if monthOf t2 ≠ month then .jump p.1 t2 else .cont p.1 t2
  else .cont rst t

/-- Hour stage of `Next` (lines 297-334); `t.Add(diff * time.Hour)`
is plain minute arithmetic. -/
def hourStage (s : Sched) (rst : Bool) (t : Int) : StageOut :=
  let day := dayOf t
  if (1 <<< (hourOf t).toNat) &&& s.hour = 0 then
    match scanUp s.hour ((hourOf t).toNat + 1) (bitsLen s.hour) with
    | none => .jump true (addDate (goDate (yearOf t) (monthOf t) (dayOf t) 0 0) 0 0 1)
    | some i =>
      let p : Bool × Int :=
        if !rst then (true, goDate (yearOf t) (monthOf t) (dayOf t) (hourOf t) 0) else (rst, t)
      let t2 := p.2 + ((i : Int) - hourOf p.2) * 60
      if dayOf t2 ≠ day then .jump p.1 t2 else .cont p.1 t2
  else .cont rst t

/-- Minute stage of `Next` (lines 336-368); no reset branch (done by
the initial truncation). -/
def minuteStage (s : Sched) (rst : Bool) (t : Int) : StageOut :=
  let hour := hourOf t
  if (1 <<< (minuteOf t).toNat) &&& s.minute = 0 then
    match scanUp s.minute ((minuteOf t).toNat + 1) (bitsLen s.minute) with
    | none => .jump rst (goDate (yearOf t) (monthOf t) (dayOf t) (hourOf t) 0 + 60)
    | some i =>
      let t2 := t + ((i : Int) - minuteOf t)
      if hourOf t2 ≠ hour then .jump rst t2 else .cont rst t2
  else .cont rst t

/-- Outcome of `Next`: the matching instant (minutes since epoch) or
the `ErrMaxYearLimit` error. -/
inductive NextRes where
  | ok (t : Int)
  | err
deriving DecidableEq, Repr

/-- The `goto loop` body of `Next`: year-limit check, then the four
stages, each jump re-entering the loop. Fuel-indexed. -/
def nextLoop (s : Sched) (maxYear : Int) : Nat → Bool → Int → Option NextRes
  | 0, _, _ => none
  | fuel + 1, rst, t =>
    if maxYear < yearOf t then some .err
    else
      match monthStage s rst t with
      | .jump r1 t1 => nextLoop s maxYear fuel r1 t1
      | .cont r1 t1 =>
        match dayStage s r1 t1 with
        | .jump r2 t2 => nextLoop s maxYear fuel r2 t2
        | .cont r2 t2 =>
          match hourStage s r2 t2 with
          | .jump r3 t3 => nextLoop s maxYear fuel r3 t3
          | .cont r3 t3 =>
            match minuteStage s r3 t3 with
            | .jump r4 t4 => nextLoop s maxYear fuel r4 t4
            | .cont _ t4 => some (.ok t4)

/-- `Next`: truncate the reference instant (in seconds) to the
minute, add one minute, and run the search loop up to
`referenceYear + yearLimit`. -/
def nextF (s : Sched) (fuel : Nat) (tsec : Int) : Option NextRes :=
  let maxYear := yearOf (tsec.fdiv 60) + yearLimit
  nextLoop s maxYear fuel false (tsec.fdiv 60 + 1)

/-- C1: the claim says a successful `Next` returns an instant at or
after the truncated-plus-one-minute candidate whose month, dom, dow,
hour and minute bits are all set. The day-of-week part FAILS on the
code: for the schedule parsed from "0 0 * * 1" (midnight, Mondays)
and reference 2024-01-02T00:00:00Z (a Tuesday), `Next` returns
2024-01-03T00:00 — a Wednesday — whose weekday bit is not set in the
schedule's day-of-week bitset: after the day stage jumps to the next
day-of-month bit, the day-of-week mask is never re-tested. -/
theorem c1_next_returns_unset_dow_bit :
    parseF 100 "0 0 * * 1" = some (.ok ⟨1, 1, 4294967294, 8190, 2⟩) ∧
    nextF ⟨1, 1, 4294967294, 8190, 2⟩ 100 1704153600 = some (.ok 28404000) ∧
    yearOf (Int.fdiv 1704153600 60) = 2024 ∧
    monthOf (Int.fdiv 1704153600 60) = 1 ∧
    dayOf (Int.fdiv 1704153600 60) = 2 ∧
    weekdayOf (Int.fdiv 1704153600 60) = 2 ∧
    yearOf 28404000 = 2024 ∧ monthOf 28404000 = 1 ∧ dayOf 28404000 = 3 ∧
    hourOf 28404000 = 0 ∧ minuteOf 28404000 = 0 ∧
    weekdayOf 28404000 = 3 ∧
    (1 <<< (weekdayOf 28404000).toNat) &&& (2 : Nat) = 0 := by
  decide

/-- C2: the claim says a candidate day is accepted only if both the
day-of-month and the day-of-week bitset tests pass. FAILS on the
code: for the schedule parsed from "0 12 * * 5" (noon, Fridays) and
reference 2024-01-06T00:00:00Z (a Saturday), the day stage rejects
Saturday (dow bit unset), jumps to the next dom bit (Sunday the 7th)
and accepts it without re-testing the day-of-week mask, so `Next`
returns 2024-01-07T12:00 — a Sunday — whose dom bit is set but whose
dow bit is not. -/
theorem c2_day_accepted_without_dow_test :
    parseF 100 "0 12 * * 5" = some (.ok ⟨1, 4096, 4294967294, 8190, 32⟩) ∧
    nextF ⟨1, 4096, 4294967294, 8190, 32⟩ 100 1704499200 = some (.ok 28410480) ∧
    weekdayOf (Int.fdiv 1704499200 60) = 6 ∧
    yearOf 28410480 = 2024 ∧ monthOf 28410480 = 1 ∧ dayOf 28410480 = 7 ∧
    hourOf 28410480 = 12 ∧ minuteOf 28410480 = 0 ∧
    weekdayOf 28410480 = 0 ∧
    (1 <<< (dayOf 28410480).toNat) &&& (4294967294 : Nat) ≠ 0 ∧
    (1 <<< (weekdayOf 28410480).toNat) &&& (32 : Nat) = 0 := by
  decide

/-- C3: the claim says `Next` returns `MaxYearExceeded` exactly when
no instant matching all five bitsets exists within the year horizon.
FAILS on the code: for the schedule parsed from "0 0 29 2 1"
(minute 0, hour 0, February 29th, Mondays) and reference
2024-03-01T00:00:00Z, the only February 29 up to the horizon year
2029 is 2028-02-29, a Tuesday, so no matching instant exists — yet
`Next` terminates successfully returning 2028-02-29T00:00, whose
day-of-week bit is not set in the schedule (the day stage accepts
the dom-bit day without re-testing the dow mask). -/
theorem c3_success_instead_of_year_limit_error :
    parseF 100 "0 0 29 2 1" = some (.ok ⟨1, 1, 536870912, 4, 2⟩) ∧
    yearOf (Int.fdiv 1709251200 60) = 2024 ∧
    nextF ⟨1, 1, 536870912, 4, 2⟩ 100 1709251200 = some (.ok 30589920) ∧
    yearOf 30589920 = 2028 ∧ monthOf 30589920 = 2 ∧ dayOf 30589920 = 29 ∧
    hourOf 30589920 = 0 ∧ minuteOf 30589920 = 0 ∧
    weekdayOf 30589920 = 2 ∧
    (1 <<< (weekdayOf 30589920).toNat) &&& (2 : Nat) = 0 := by
  decide

/-- C8: the hour field is compiled against bounds 0..24, one past
the valid maximum hour 23: an asterisk in the hour field sets bits 0
through 24, the literal "24" is accepted, and "25" is rejected. -/
theorem c8_hour_bound_is_24 :
    boundHour = ⟨0, 24⟩ ∧
    parseFieldF 100 "*".data boundHour = some (.ok (2 ^ 25 - 1)) ∧
    parseFieldF 100 "24".data boundHour = some (.ok (2 ^ 24)) ∧
    parseFieldF 100 "25".data boundHour = some .invalid ∧
    parseF 100 "* 24 * * *" =
      some (.ok ⟨2 ^ 60 - 1, 2 ^ 24, 4294967294, 8190, 127⟩) ∧
    parseF 100 "* 25 * * *" = some .invalid := by
  decide

/-- C9: for the schedule parsed from "59 23 1 * 1" (UTC) and the
reference instant 2024-12-31T23:59:00Z, `Next` succeeds and returns
an instant in year 2025 (concretely 2025-09-01T23:59, the first
1st-of-month after the reference that is also a Monday). -/
theorem c9_rolls_into_2025 :
    parseF 100 "59 23 1 * 1" =
      some (.ok ⟨576460752303423488, 8388608, 2, 8190, 2⟩) ∧
    yearOf (Int.fdiv 1735689540 60) = 2024 ∧
    monthOf (Int.fdiv 1735689540 60) = 12 ∧
    dayOf (Int.fdiv 1735689540 60) = 31 ∧
    nextF ⟨576460752303423488, 8388608, 2, 8190, 2⟩ 100 1735689540 =
      some (.ok 29279519) ∧
    yearOf 29279519 = 2025 ∧ monthOf 29279519 = 9 ∧ dayOf 29279519 = 1 ∧
    hourOf 29279519 = 23 ∧ minuteOf 29279519 = 59 := by
  decide

/-- C10: the field compiler does not reject a negative step: the
part "5-10" with appended step text "-1" (slash-separated) passes
all shape and bounds checks (begin 5, end 10, step -1 all parse;
5 and 10 are within the minute bounds), and
`buildBitset` then drives the loop index from 5 down below zero,
where `1 << i` with a negative shift amount is a Go runtime panic —
compilation panics instead of returning `InvalidExpression`. -/
theorem c10_negative_step_panics :
    atoi "-1".data = some (-1) ∧
    buildBitsetF 20 5 10 (-1) 0 = some .panicked ∧
    parseFieldPartF 20 "5-10/-1".data boundMinute = some .panicked := by
  decide

/-- With step 0 and a loop index already inside `[0, mx]`, the
`buildBitset` loop never terminates: no amount of fuel returns. -/
theorem buildBitsetF_zero_step_none (fuel : Nat) :
    ∀ (i mx : Int) (acc : Nat), 0 ≤ i → i ≤ mx →
      buildBitsetF fuel i mx 0 acc = none := by
  induction fuel with
  | zero => intro i mx acc _ _; rfl
  | succ n ih =>
    intro i mx acc h0 hle
    simp only [buildBitsetF, if_pos hle, if_neg (not_lt.mpr h0)]
    simpa using ih i mx (acc ||| 1 <<< i.toNat) h0 hle

/-- C7: the field compiler does not reject a step of zero: for the
field part "0" with step text "0" (the range expands to 0-59 over
the minute bounds, step 0), compilation returns neither a bitset nor
an error for ANY fuel — the bit-setting loop of `buildBitset` never
terminates. -/
theorem c7_zero_step_never_returns (fuel : Nat) :
    parseFieldPartF fuel "0/0".data boundMinute = none := by
  have h : parseFieldPartF fuel "0/0".data boundMinute =
      buildBitsetF fuel 0 59 0 0 := rfl
  rw [h]
  exact buildBitsetF_zero_step_none fuel 0 59 0 (by norm_num) (by norm_num)

/-- Every character emitted by the digit loop is a decimal digit
(or came from the accumulator). -/
theorem mem_natToCharsGo (fuel : Nat) :
    ∀ (n : Nat) (acc : List Char) (c : Char), c ∈ natToCharsGo fuel n acc →
      c ∈ acc ∨ ∃ d, d < 10 ∧ c = Char.ofNat (48 + d) := by
  induction fuel with
  | zero => intro n acc c h; exact Or.inl h
  | succ m ih =>
    intro n acc c h
    simp only [natToCharsGo] at h
    have hd : n % 10 < 10 := Nat.mod_lt n (by norm_num)
    split at h
    · rcases List.mem_cons.mp h with h | h
      · exact Or.inr ⟨n % 10, hd, h⟩
      · exact Or.inl h
    · rcases ih (n / 10) _ c h with h2 | h2
      · rcases List.mem_cons.mp h2 with h3 | h3
        · exact Or.inr ⟨n % 10, hd, h3⟩
        · exact Or.inl h3
      · exact Or.inr h2

/-- Every character of the decimal representation is a digit. -/
theorem mem_natToChars {n : Nat} {c : Char} (h : c ∈ natToChars n) :
    ∃ d, d < 10 ∧ c = Char.ofNat (48 + d) := by
  rcases mem_natToCharsGo (n + 1) n [] c h with h2 | h2
  · cases h2
  · exact h2

/-- A decimal digit character is not a star. -/
theorem digitChar_ne_star {d : Nat} (hd : d < 10) : Char.ofNat (48 + d) ≠ '*' := by
  interval_cases d <;> decide

/-- The star character does not occur in a formatted natural. -/
theorem star_not_mem_natToChars (n : Nat) : '*' ∉ natToChars n := by
  intro h
  rcases mem_natToChars h with ⟨d, hd, hc⟩
  exact digitChar_ne_star hd hc.symm

/-- The star character does not occur in a formatted int. -/
theorem star_not_mem_intToChars (z : Int) : '*' ∉ intToChars z := by
  intro h
  unfold intToChars at h
  split at h
  · rcases List.mem_cons.mp h with h2 | h2
    · cases h2
    · exact star_not_mem_natToChars _ h2
  · exact star_not_mem_natToChars _ h

/-- The star character does not occur in the formatted min-max range. -/
theorem star_not_mem_fmtMinMax (b : FieldBounds) : '*' ∉ fmtMinMax b := by
  intro h
  unfold fmtMinMax at h
  rcases List.mem_append.mp h with h2 | h2
  · exact star_not_mem_intToChars _ h2
  · rcases List.mem_cons.mp h2 with h3 | h3
    · cases h3
    · exact star_not_mem_intToChars _ h3

/-- Replacing the first star in a star-free text is the identity. -/
theorem replaceFirstStar_eq_self (r : List Char) :
    ∀ l : List Char, '*' ∉ l → replaceFirstStar r l = l := by
  intro l
  induction l with
  | nil => intro _; rfl
  | cons c cs ih =>
    intro h
    have hc : c ≠ '*' := fun hc => h (hc ▸ List.mem_cons_self c cs)
    have hcs : '*' ∉ cs := fun hm => h (List.mem_cons_of_mem _ hm)
    simp only [replaceFirstStar, if_neg hc, ih hcs]

/-- C5: an asterisk in a field part compiles to exactly the same
result as the literal text "min-max" for the field's bounds, and
"asterisk-slash-N" compiles to exactly the same result as
"min-max-slash-N" for every positive N (for every fuel, so results
agree also in the non-terminating step-0 corner). -/
theorem c5_asterisk_equiv :
    (∀ (b : FieldBounds) (fuel : Nat),
        parseFieldPartF fuel ('*' :: []) b = parseFieldPartF fuel (fmtMinMax b) b) ∧
    (∀ (b : FieldBounds) (n : Nat) (fuel : Nat), 0 < n →
        parseFieldPartF fuel ('*' :: '/' :: natToChars n) b =
          parseFieldPartF fuel (fmtMinMax b ++ '/' :: natToChars n) b) := by
  constructor
  · intro b fuel
    have h1 : replaceFirstStar (fmtMinMax b) ('*' :: []) = fmtMinMax b := by
      simp [replaceFirstStar]
    have h2 : replaceFirstStar (fmtMinMax b) (fmtMinMax b) = fmtMinMax b :=
      replaceFirstStar_eq_self _ _ (star_not_mem_fmtMinMax b)
    simp only [parseFieldPartF, h1, h2]
  · intro b n fuel _
    have h1 : replaceFirstStar (fmtMinMax b) ('*' :: '/' :: natToChars n) =
        fmtMinMax b ++ '/' :: natToChars n := by
      simp [replaceFirstStar]
    have h2 : replaceFirstStar (fmtMinMax b) (fmtMinMax b ++ '/' :: natToChars n) =
        fmtMinMax b ++ '/' :: natToChars n := by
      refine replaceFirstStar_eq_self _ _ ?_
      intro h
      rcases List.mem_append.mp h with h2 | h2
      · exact star_not_mem_fmtMinMax b h2
      · rcases List.mem_cons.mp h2 with h3 | h3
        · cases h3
        · exact star_not_mem_natToChars n h3
    simp only [parseFieldPartF, h1, h2]

/-- Witness for C5 at the minute bounds with N = 2 and fuel 64. -/
theorem c5_asterisk_equiv_witness :
    0 < 2 ∧
      parseFieldPartF 64 ('*' :: '/' :: natToChars 2) boundMinute =
        parseFieldPartF 64 (fmtMinMax boundMinute ++ '/' :: natToChars 2) boundMinute :=
  ⟨by decide, c5_asterisk_equiv.2 boundMinute 2 64 (by decide)⟩

/-- If the `buildBitset` loop returns a bitset, then either it never
ran (index already past the end) or the step is positive (a zero
step never terminates, a negative step from inside the range ends in
a panic). -/
theorem buildBitsetF_ok_step_pos (fuel : Nat) :
    ∀ (i mx st : Int) (acc r : Nat),
      buildBitsetF fuel i mx st acc = some (.ok r) → mx < i ∨ 0 < st := by
  induction fuel with
  | zero => intro i mx st acc r h; cases h
  | succ m ih =>
    intro i mx st acc r h
    simp only [buildBitsetF] at h
    split at h
    · rename_i hle
      split at h
      · cases h
      · rcases ih _ _ _ _ _ h with h2 | h2
        · right; omega
        · exact Or.inr h2
    · rename_i hgt; left; omega

/-- Bits produced by the `buildBitset` loop with a positive step all
lie in `[i, mx]` (or were already in the accumulator). -/
theorem buildBitsetF_ok_bits (fuel : Nat) :
    ∀ (i mx st : Int) (acc r : Nat), 0 < st →
      buildBitsetF fuel i mx st acc = some (.ok r) →
      ∀ k : Nat, r.testBit k = true →
        acc.testBit k = true ∨ (i ≤ (k : Int) ∧ (k : Int) ≤ mx) := by
  induction fuel with
  | zero => intro i mx st acc r _ h; cases h
  | succ m ih =>
    intro i mx st acc r hst h k hk
    simp only [buildBitsetF] at h
    split at h
    · rename_i hle
      split at h
      · cases h
      · rename_i hneg
        have h0 : (0 : Int) ≤ i := by omega
        rcases ih _ _ _ _ _ hst h k hk with h2 | h2
        · rw [Nat.testBit_or] at h2
          rcases Bool.or_eq_true_iff.mp h2 with h3 | h3
          · exact Or.inl h3
          · rw [Nat.one_shiftLeft, Nat.testBit_two_pow] at h3
            have hk2 : i.toNat = k := of_decide_eq_true h3
            right
            constructor
            · omega
            · omega
        · right; omega
    · obtain rfl : acc = r := by simpa using h
      exact Or.inl hk

/-- If a field part compiles to a bitset, every set bit lies within
the field's bounds: the begin/end bounds checks plus the loop
invariant of `buildBitset`. -/
theorem parseFieldPartF_ok_bits (fuel : Nat) (p : List Char) (b : FieldBounds)
    (r : Nat) (h : parseFieldPartF fuel p b = some (.ok r)) :
    ∀ k : Nat, r.testBit k = true → b.min ≤ (k : Int) ∧ (k : Int) ≤ b.max := by
  intro k hk
  simp only [parseFieldPartF] at h
  split at h
  · cases h
  · split at h
    · cases h
    · split at h
      · cases h
      · rename_i bg hbg0
        split at h
        · cases h
        · rename_i hbgok
          split at h
          · cases h
          · rename_i en hen0
            split at h
            · cases h
            · rename_i henok
              split at h
              · cases h
              · rename_i henbg
                split at h
                · cases h
                · rename_i st hst0
                  rcases buildBitsetF_ok_step_pos fuel bg en st 0 r h with h2 | h2
                  · omega
                  · rcases buildBitsetF_ok_bits fuel bg en st 0 r h2 h k hk with h3 | h3
                    · rw [Nat.zero_testBit] at h3; cases h3
                    · push_neg at hbgok henok
                      omega

/-- The OR accumulation over comma-separated parts preserves the
bits-within-bounds invariant. -/
theorem parseFieldAux_ok_bits (fuel : Nat) (b : FieldBounds) :
    ∀ (parts : List (List Char)) (acc r : Nat),
      parseFieldAux fuel b parts acc = some (.ok r) →
      (∀ k : Nat, acc.testBit k = true → b.min ≤ (k : Int) ∧ (k : Int) ≤ b.max) →
      ∀ k : Nat, r.testBit k = true → b.min ≤ (k : Int) ∧ (k : Int) ≤ b.max := by
  intro parts
  induction parts with
  | nil =>
    intro acc r h hacc k hk
    obtain rfl : acc = r := by simpa [parseFieldAux] using h
    exact hacc k hk
  | cons p ps ih =>
    intro acc r h hacc k hk
    simp only [parseFieldAux] at h
    split at h
    · cases h
    · cases h
    · cases h
    · rename_i pr hpr
      refine ih (acc ||| pr) r h ?_ k hk
      intro k2 hk2
      rw [Nat.testBit_or] at hk2
      rcases Bool.or_eq_true_iff.mp hk2 with h3 | h3
      · exact hacc k2 h3
      · exact parseFieldPartF_ok_bits fuel p b pr hpr k2 h3

/-- Structure of the decimal representation: single digit. -/
theorem natToChars_lt {n : Nat} (h : n < 10) :
    natToChars n = [Char.ofNat (48 + n)] := by
  have h10 : n / 10 = 0 := Nat.div_eq_of_lt h
  have hm : n % 10 = n := Nat.mod_eq_of_lt h
  simp [natToChars, natToCharsGo, h10, hm]

/-- The digit accumulator only prepends to its accumulator. -/
theorem natToCharsGo_append (fuel : Nat) :
    ∀ (n : Nat) (acc : List Char),
      natToCharsGo fuel n acc = natToCharsGo fuel n [] ++ acc := by
  induction fuel with
  | zero => intro n acc; rfl
  | succ m ih =>
    intro n acc
    simp only [natToCharsGo]
    by_cases h : n / 10 = 0
    · simp [h]
    · simp only [if_neg h]
      rw [ih (n / 10) (Char.ofNat (48 + n % 10) :: acc),
        ih (n / 10) [Char.ofNat (48 + n % 10)]]
      simp

/-- The digit accumulator does not depend on the fuel, as long as
the fuel exceeds the number being printed. -/
theorem natToCharsGo_fuel (fuel1 : Nat) :
    ∀ (fuel2 n : Nat) (acc : List Char), n < fuel1 → n < fuel2 →
      natToCharsGo fuel1 n acc = natToCharsGo fuel2 n acc := by
  induction fuel1 with
  | zero => intro fuel2 n acc h1 _; omega
  | succ m ih =>
    intro fuel2 n acc h1 h2
    cases fuel2 with
    | zero => omega
    | succ m2 =>
      simp only [natToCharsGo]
      by_cases h : n / 10 = 0
      · simp [h]
      · simp only [if_neg h]
        have hdiv : n / 10 < n := Nat.div_lt_self (by omega) (by norm_num)
        exact ih m2 (n / 10) _ (by omega) (by omega)

/-- Structure of the decimal representation: more than one digit. -/
theorem natToChars_ge {n : Nat} (h : 10 ≤ n) :
    natToChars n = natToChars (n / 10) ++ [Char.ofNat (48 + n % 10)] := by
  have h0 : n / 10 ≠ 0 := by
    intro hc
    have := Nat.div_add_mod n 10
    have : n % 10 < 10 := Nat.mod_lt n (by norm_num)
    omega
  have hdiv : n / 10 < n := Nat.div_lt_self (by omega) (by norm_num)
  show natToCharsGo (n + 1) n [] = _
  simp only [natToCharsGo, if_neg h0]
  rw [natToCharsGo_append n (n / 10) [Char.ofNat (48 + n % 10)]]
  rw [natToCharsGo_fuel n (n / 10 + 1) (n / 10) [] (by omega) (by omega)]
  rfl

/-- The decimal representation of a natural is never empty. -/
theorem natToChars_ne_nil (n : Nat) : natToChars n ≠ [] := by
  by_cases h : n < 10
  · rw [natToChars_lt h]; simp
  · rw [natToChars_ge (by omega)]; simp

/-- A digit character's code point round-trips through `Char.ofNat`. -/
theorem toNat_digitChar {d : Nat} (hd : d < 10) :
    (Char.ofNat (48 + d)).toNat = 48 + d := by
  interval_cases d <;> decide

/-- A digit character satisfies the digit test. -/
theorem isDigitChar_digit {d : Nat} (hd : d < 10) :
    isDigitChar (Char.ofNat (48 + d)) = true := by
  interval_cases d <;> decide

/-- Every character of a decimal representation passes the digit test. -/
theorem mem_natToChars_digit {n : Nat} {c : Char} (h : c ∈ natToChars n) :
    isDigitChar c = true := by
  rcases mem_natToChars h with ⟨d, hd, rfl⟩
  exact isDigitChar_digit hd

/-- Parsing the decimal digits of `n` back yields `n`. -/
theorem digitsVal_natToChars (n : Nat) : digitsVal (natToChars n) = n := by
  induction n using Nat.strong_induction_on with
  | _ n ih =>
    by_cases h : n < 10
    · rw [natToChars_lt h]
      simp only [digitsVal, List.foldl]
      rw [toNat_digitChar h]
      omega
    · have h10 : 10 ≤ n := by omega
      rw [natToChars_ge h10]
      have hdiv : n / 10 < n := Nat.div_lt_self (by omega) (by norm_num)
      have hm : n % 10 < 10 := Nat.mod_lt n (by norm_num)
      simp only [digitsVal] at ih ⊢
      rw [List.foldl_append, ih (n / 10) hdiv]
      simp only [List.foldl]
      rw [toNat_digitChar hm]
      omega

/-- Splitting a text that does not contain the separator yields the
text as the single part. -/
theorem splitOnChar_eq_single (sep : Char) :
    ∀ l : List Char, sep ∉ l → splitOnChar sep l = [l] := by
  intro l
  induction l with
  | nil => intro _; rfl
  | cons c cs ih =>
    intro h
    have hc : c ≠ sep := fun hc => h (hc ▸ List.mem_cons_self c cs)
    have hcs : sep ∉ cs := fun hm => h (List.mem_cons_of_mem _ hm)
    simp only [splitOnChar, ih hcs, if_neg hc]

/-- `strconv.Atoi` on the decimal representation of a natural:
parses back to the value, unless it overflows the 64-bit int range. -/
theorem atoi_natToChars (v : Nat) :
    atoi (natToChars v) =
      if (2 ^ 63 - 1 : Int) < (v : Int) then none else some (v : Int) := by
  obtain ⟨c, rest, hcr⟩ := List.exists_cons_of_ne_nil (natToChars_ne_nil v)
  have hcd : isDigitChar c = true :=
    mem_natToChars_digit (hcr ▸ List.mem_cons_self c rest)
  have hcp : c ≠ '+' := by
    intro hc; rw [hc] at hcd; exact absurd hcd (by decide)
  have hcm : c ≠ '-' := by
    intro hc; rw [hc] at hcd; exact absurd hcd (by decide)
  have hall : (natToChars v).all isDigitChar = true :=
    List.all_eq_true.mpr fun c2 hc2 => mem_natToChars_digit hc2
  rw [atoi.eq_def, hcr]
  simp only [if_neg hcp, if_neg hcm]
  rw [if_neg (by simp), if_pos (hcr ▸ hall)]
  have hval : digitsVal (c :: rest) = v := hcr ▸ digitsVal_natToChars v
  rw [hval, one_mul]
  by_cases hbig : (2 ^ 63 - 1 : Int) < (v : Int)
  · rw [if_pos (Or.inr hbig), if_pos hbig]
  · rw [if_neg ?_, if_neg hbig]
    rintro (hc | hc)
    · have h0 : (0 : Int) ≤ (v : Int) := Int.natCast_nonneg v
      have hlit : (-(2 ^ 63) : Int) < 0 := by norm_num
      linarith
    · exact hbig hc

/-- A pure-number field part whose value lies outside the field's
bounds is rejected with `InvalidExpression` at compile time. -/
theorem parseFieldPartF_out_of_bounds (v : Nat) (b : FieldBounds) (fuel : Nat)
    (hvb : (v : Int) < b.min ∨ b.max < (v : Int)) :
    parseFieldPartF fuel (natToChars v) b = some .invalid := by
  have hstar : ('*' : Char) ∉ natToChars v :=
    fun h => absurd (mem_natToChars_digit h) (by decide)
  have hslash : ('/' : Char) ∉ natToChars v :=
    fun h => absurd (mem_natToChars_digit h) (by decide)
  have hdash : ('-' : Char) ∉ natToChars v :=
    fun h => absurd (mem_natToChars_digit h) (by decide)
  simp only [parseFieldPartF, replaceFirstStar_eq_self _ _ hstar,
    splitOnChar_eq_single _ _ hslash, List.length_singleton, List.headD_cons,
    splitOnChar_eq_single _ _ hdash, List.getD]
  norm_num
  rw [atoi_natToChars]
  by_cases hbig : (2 ^ 63 - 1 : Int) < (v : Int)
  · rw [if_pos hbig]
  · rw [if_neg hbig]
    have hcond : b.max < (v : Int) ∨ (v : Int) < b.min := by
      rcases hvb with h | h
      · exact Or.inr h
      · exact Or.inl h
    show (if b.max < (v : Int) ∨ (v : Int) < b.min then some PartRes.invalid
      else if b.max < (v : Int) ∨ (v : Int) < b.min then some PartRes.invalid
      else buildBitsetF fuel (v : Int) (v : Int) 1 0) = some PartRes.invalid
    rw [if_pos hcond]

/-- C6: (i) whenever the field compiler accepts a field text and
returns a bitset, every set bit lies within the field's inclusive
bounds, and (ii) a pure-number part whose value lies outside the
bounds is rejected with `InvalidExpression` at compile time, never
silently masked off. -/
theorem c6_bits_within_bounds :
    (∀ (fuel : Nat) (field : List Char) (b : FieldBounds) (r : Nat),
        parseFieldF fuel field b = some (.ok r) →
        ∀ k : Nat, r.testBit k = true → b.min ≤ (k : Int) ∧ (k : Int) ≤ b.max) ∧
    (∀ (v : Nat) (b : FieldBounds) (fuel : Nat),
        ((v : Int) < b.min ∨ b.max < (v : Int)) →
        parseFieldPartF fuel (natToChars v) b = some .invalid) := by
  constructor
  · intro fuel field b r h k hk
    refine parseFieldAux_ok_bits fuel b (splitOnChar ',' field) 0 r h ?_ k hk
    intro k2 hk2
    rw [Nat.zero_testBit] at hk2
    cases hk2
  · exact parseFieldPartF_out_of_bounds

/-- Witness for C6: the accepted minute field "5" has its single set
bit 5 within 0..59, and the out-of-bounds minute value 60 is
rejected. -/
theorem c6_bits_within_bounds_witness :
    (boundMinute.min ≤ (5 : Int) ∧ (5 : Int) ≤ boundMinute.max) ∧
      parseFieldPartF 64 (natToChars 60) boundMinute = some .invalid :=
  ⟨c6_bits_within_bounds.1 64 "5".data boundMinute 32 (by decide) 5 (by decide),
   c6_bits_within_bounds.2 60 boundMinute 64 (by decide)⟩

/-- C4: `Parse` returns `InvalidExpression` exactly for malformed
input: (i) any expression with a whitespace-token count other than
five is rejected; (ii) "* * * *" (4 fields), "60 * * * *" (minute
out of bounds) and "5-3 * * * *" (end before begin) are rejected;
(iii) for a 5-token expression, the result is `InvalidExpression`
precisely when, compiling the fields in order (minute, hour, dom,
month, dow), the first field that does not compile to a bitset fails
with `InvalidExpression` — the first failure short-circuits. -/
theorem c4_invalid_expression :
    (∀ (e : String) (fuel : Nat),
        (goFields (goTrimSpace e.data)).length ≠ 5 →
        parseF fuel e = some .invalid) ∧
    parseF 64 "* * * *" = some .invalid ∧
    parseF 64 "60 * * * *" = some .invalid ∧
    parseF 64 "5-3 * * * *" = some .invalid ∧
    (∀ (e : String) (fuel : Nat) (f0 f1 f2 f3 f4 : List Char),
        goFields (goTrimSpace e.data) = [f0, f1, f2, f3, f4] →
        (parseF fuel e = some .invalid ↔
          parseFieldF fuel f0 boundMinute = some .invalid ∨
            ((∃ b0, parseFieldF fuel f0 boundMinute = some (.ok b0)) ∧
              (parseFieldF fuel f1 boundHour = some .invalid ∨
                ((∃ b1, parseFieldF fuel f1 boundHour = some (.ok b1)) ∧
                  (parseFieldF fuel f2 boundDOM = some .invalid ∨
                    ((∃ b2, parseFieldF fuel f2 boundDOM = some (.ok b2)) ∧
                      (parseFieldF fuel f3 boundMonth = some .invalid ∨
                        ((∃ b3, parseFieldF fuel f3 boundMonth = some (.ok b3)) ∧
                          parseFieldF fuel f4 boundDOW = some .invalid))))))))) := by
  refine ⟨?_, by decide, by decide, by decide, ?_⟩
  · intro e fuel h
    unfold parseF
    split
    · rename_i f0 f1 f2 f3 f4 heq
      rw [heq] at h
      simp at h
    · rfl
  · intro e fuel f0 f1 f2 f3 f4 heq
    unfold parseF
    split
    · rename_i g0 g1 g2 g3 g4 heq2
      rw [heq] at heq2
      obtain ⟨rfl, rfl, rfl, rfl, rfl⟩ :
          f0 = g0 ∧ f1 = g1 ∧ f2 = g2 ∧ f3 = g3 ∧ f4 = g4 := by
        simpa using heq2
      cases h0 : parseFieldF fuel f0 boundMinute with
      | none => simp [h0]
      | some r0 =>
        cases r0 with
        | invalid => simp [h0]
        | panicked => simp [h0]
        | ok b0 =>
          cases h1 : parseFieldF fuel f1 boundHour with
          | none => simp [h0, h1]
          | some r1 =>
            cases r1 with
            | invalid => simp [h0, h1]
            | panicked => simp [h0, h1]
            | ok b1 =>
              cases h2 : parseFieldF fuel f2 boundDOM with
              | none => simp [h0, h1, h2]
              | some r2 =>
                cases r2 with
                | invalid => simp [h0, h1, h2]
                | panicked => simp [h0, h1, h2]
                | ok b2 =>
                  cases h3 : parseFieldF fuel f3 boundMonth with
                  | none => simp [h0, h1, h2, h3]
                  | some r3 =>
                    cases r3 with
                    | invalid => simp [h0, h1, h2, h3]
                    | panicked => simp [h0, h1, h2, h3]
                    | ok b3 =>
                      cases h4 : parseFieldF fuel f4 boundDOW with
                      | none => simp [h0, h1, h2, h3, h4]
                      | some r4 =>
                        cases r4 with
                        | invalid => simp [h0, h1, h2, h3, h4]
                        | panicked => simp [h0, h1, h2, h3, h4]
                        | ok b4 => simp [h0, h1, h2, h3, h4]
    · rename_i hne
      exact absurd heq (hne f0 f1 f2 f3 f4)

/-- Witness for C4: a 3-token expression is rejected, and via the
short-circuit characterization, a 5-token expression whose third
field (day-of-month 0, below the bound 1) fails compiles to
`InvalidExpression`. -/
theorem c4_invalid_expression_witness :
    parseF 16 "1 2 3" = some ParseRes.invalid ∧
      parseF 16 "0 0 0 0 0" = some ParseRes.invalid :=
  ⟨c4_invalid_expression.1 "1 2 3" 16 (by decide),
   (c4_invalid_expression.2.2.2.2 "0 0 0 0 0" 16 "0".data "0".data "0".data
        "0".data "0".data (by decide)).mpr
      (Or.inr ⟨⟨1, by decide⟩, Or.inr ⟨⟨1, by decide⟩, Or.inl (by decide)⟩⟩)⟩
